import Mathlib

/- Verification development for the dwg repository, a directed weighted
graph container.  The repository holds two revisions of the same class:

* Strict (src/src/dwg.ts): addVertex rejects duplicate vertices; removeEdge
  and getWeight test the stored weight with JavaScript truthiness, so an
  absent edge and an edge with a falsy weight are conflated; removeVertex
  walks only the outgoing edge map of the removed vertex and calls
  removeEdge on each destination.

* Replace (src/unnamed/part_001): addVertex replaces an existing vertex
  after a cascading removeVertex; removeEdge and getWeight use explicit
  key presence checks; removeVertex deletes the vertex from every other
  outgoing edge map.

The adjacency structure (a JavaScript Map from vertex to a Map from
destination vertex to weight) is embedded as an association list with
insertion order semantics.  Mutation plus exceptions is embedded by
returning a pair of an Except outcome and the post state, so that a state
mutated before a throw is faithfully observable. -/

deriving instance DecidableEq for Except

namespace Dwg

/-- First value stored under a key, modelling JavaScript Map.get where an
absent key yields undefined, embedded as none. -/
def mapGet {V A : Type} [DecidableEq V] : List (V × A) → V → Option A
  | [], _ => none
  | (k, a) :: rest, k0 => if k0 = k then some a else mapGet rest k0

/-- Key presence test, modelling Map.has. -/
def mapHas {V A : Type} [DecidableEq V] (m : List (V × A)) (k : V) : Bool :=
  (mapGet m k).isSome

/-- Insert or overwrite, modelling Map.set: an existing key keeps its
position in iteration order, a new key is appended at the end. -/
def mapSet {V A : Type} [DecidableEq V] : List (V × A) → V → A → List (V × A)
  | [], k0, a0 => [(k0, a0)]
  | (k, a) :: rest, k0, a0 =>
      if k0 = k then (k0, a0) :: rest else (k, a) :: mapSet rest k0 a0

/-- Delete a key, modelling Map.delete; whether the key was present is
recovered separately via mapHas. -/
def mapDelete {V A : Type} [DecidableEq V] : List (V × A) → V → List (V × A)
  | [], _ => []
  | (k, a) :: rest, k0 => if k0 = k then rest else (k, a) :: mapDelete rest k0

/-- Keys of an association list in iteration order. -/
def keysOf {V A : Type} (m : List (V × A)) : List V := m.map Prod.fst

/-- The graph state: the private adjList field, a Map from each vertex to
the Map from destination vertex to weight. -/
structure DWG (V W : Type) where
  adjList : List (V × List (V × W))
deriving DecidableEq

/-- Error taxonomy of the source, by thrown message:
unknownOrigin for the messages starting with First vertex,
unknownDestination for the messages starting with Second vertex,
duplicateVertex for Vertex already exists in the graph,
edgeNotFound for No such edge exists in the graph. -/
inductive GErr where
  | unknownOrigin
  | unknownDestination
  | duplicateVertex
  | edgeNotFound
deriving DecidableEq

/-- Getter vertexCount: size of the outer map. -/
def vertexCount {V W : Type} (g : DWG V W) : Nat := g.adjList.length

/-- Getter edgeCount: sum of the sizes of all inner edge maps. -/
def edgeCount {V W : Type} (g : DWG V W) : Nat :=
  (g.adjList.map (fun e => e.2.length)).sum

/-- Method has: whether the vertex is a key of the outer map. -/
def has {V W : Type} [DecidableEq V] (g : DWG V W) (v : V) : Bool :=
  mapHas g.adjList v

/-- Method getEdges: all outgoing entries of a vertex in iteration order,
an empty list when the vertex is absent. -/
def getEdges {V W : Type} [DecidableEq V] (g : DWG V W) (v : V) : List (V × W) :=
  (mapGet g.adjList v).getD []

/-- Method getAllVertices: snapshot of all keys of the outer map. -/
def getAllVertices {V W : Type} (g : DWG V W) : List V :=
  g.adjList.map Prod.fst

/-- Method find: all vertices passing the filter, in iteration order. -/
def find {V W : Type} (g : DWG V W) (filterFn : V → Bool) : List V :=
  (g.adjList.map Prod.fst).filter filterFn

namespace Strict

/-- Revision src/src/dwg.ts addVertex: throws on a duplicate vertex,
otherwise stores an empty edge map and returns the graph (the returned
this is the threaded post state). -/
def addVertex {V W : Type} [DecidableEq V] (g : DWG V W) (v : V) :
    Except GErr Unit × DWG V W :=
  if mapHas g.adjList v then (Except.error GErr.duplicateVertex, g)
  else (Except.ok (), ⟨mapSet g.adjList v []⟩)

/-- Revision src/src/dwg.ts addEdge: get the origin edge map (undefined is
falsy, so an absent origin throws First vertex), check the destination
with has, then set the weight in the origin edge map. -/
def addEdge {V W : Type} [DecidableEq V] (g : DWG V W) (v1 v2 : V) (w : W) :
    Except GErr Unit × DWG V W :=
  match mapGet g.adjList v1 with
  | none => (Except.error GErr.unknownOrigin, g)
  | some edgeMap =>
    if mapHas g.adjList v2 then
      (Except.ok (), ⟨mapSet g.adjList v1 (mapSet edgeMap v2 w)⟩)
    else (Except.error GErr.unknownDestination, g)

/-- Revision src/src/dwg.ts removeEdge: looks the weight up in the origin
edge map and tests it with JavaScript truthiness, so both an absent edge
and a present edge whose weight is falsy throw the Second vertex error;
otherwise the edge is deleted and the weight is returned.  The falsy
parameter is the truthiness predicate of the weight type. -/
def removeEdge {V W : Type} [DecidableEq V] (falsy : W → Bool) (g : DWG V W)
    (v1 v2 : V) : Except GErr W × DWG V W :=
  match mapGet g.adjList v1 with
  | none => (Except.error GErr.unknownOrigin, g)
  | some edgeMap =>
    match mapGet edgeMap v2 with
    | none => (Except.error GErr.unknownDestination, g)
    | some w =>
      if falsy w then (Except.error GErr.unknownDestination, g)
      else (Except.ok w, ⟨mapSet g.adjList v1 (mapDelete edgeMap v2)⟩)

/-- Loop body of revision src/src/dwg.ts removeVertex: for each
destination in the snapshot of the outgoing keys of v, call removeEdge
with that destination as origin and v as destination, stopping at the
first throw, keeping the mutations done up to that point.  Each iteration only
deletes the key v from the edge map of the current destination, so
iterating the snapshot of keys agrees with the live Map iteration of the
source, including the self loop case. -/
def removeLoop {V W : Type} [DecidableEq V] (falsy : W → Bool) (g : DWG V W)
    (v : V) : List V → Except GErr Unit × DWG V W
  | [] => (Except.ok (), g)
  | d :: rest =>
    match removeEdge falsy g d v with
    | (Except.ok _, g1) => removeLoop falsy g1 v rest
    | (Except.error e, g1) => (Except.error e, g1)

/-- Revision src/src/dwg.ts removeVertex: returns false when the vertex is
absent; otherwise calls removeEdge(destVertex, v) for every key of the
outgoing edge map of v, then deletes v from the outer map.  An exception
raised by an inner removeEdge propagates, and the mutations done before
the throw stay in place. -/
def removeVertex {V W : Type} [DecidableEq V] (falsy : W → Bool) (g : DWG V W)
    (v : V) : Except GErr Bool × DWG V W :=
  match mapGet g.adjList v with
  | none => (Except.ok false, g)
  | some edgeMap =>
    match removeLoop falsy g v (edgeMap.map Prod.fst) with
    | (Except.ok _, g1) => (Except.ok true, ⟨mapDelete g1.adjList v⟩)
    | (Except.error e, g1) => (Except.error e, g1)

/-- Revision src/src/dwg.ts getWeight: looks the weight up in the origin
edge map and tests it with truthiness, so an absent edge and a falsy
weight both throw the Second vertex error. -/
def getWeight {V W : Type} [DecidableEq V] (falsy : W → Bool) (g : DWG V W)
    (v1 v2 : V) : Except GErr W :=
  match mapGet g.adjList v1 with
  | none => Except.error GErr.unknownOrigin
  | some edgeMap =>
    match mapGet edgeMap v2 with
    | none => Except.error GErr.unknownDestination
    | some w =>
      if falsy w then Except.error GErr.unknownDestination else Except.ok w

end Strict

namespace Replace

/-- Revision src/unnamed/part_001 removeVertex: if the vertex is present,
delete it from the edge map of every other vertex (the entry of v itself
is skipped by the continue), then delete v from the outer map and return
true; otherwise return false. -/
def removeVertex {V W : Type} [DecidableEq V] (g : DWG V W) (v : V) :
    Except GErr Bool × DWG V W :=
  if mapHas g.adjList v then
    (Except.ok true,
     ⟨mapDelete
        (g.adjList.map (fun e => if e.1 = v then e else (e.1, mapDelete e.2 v)))
        v⟩)
  else (Except.ok false, g)

/-- Revision src/unnamed/part_001 addVertex: an existing vertex is first
removed via removeVertex with full cascade, then the vertex is stored
with an empty edge map. -/
def addVertex {V W : Type} [DecidableEq V] (g : DWG V W) (v : V) :
    Except GErr Unit × DWG V W :=
  let g1 := if mapHas g.adjList v then (removeVertex g v).2 else g
  (Except.ok (), ⟨mapSet g1.adjList v []⟩)

/-- Revision src/unnamed/part_001 addEdge: explicit has checks on both
vertices, then set the weight in the origin edge map (the non null
assertion on the get is embedded with getD, unreachable after the has
check). -/
def addEdge {V W : Type} [DecidableEq V] (g : DWG V W) (v1 v2 : V) (w : W) :
    Except GErr Unit × DWG V W :=
  if mapHas g.adjList v1 = false then (Except.error GErr.unknownOrigin, g)
  else if mapHas g.adjList v2 = false then (Except.error GErr.unknownDestination, g)
  else
    (Except.ok (),
     ⟨mapSet g.adjList v1 (mapSet ((mapGet g.adjList v1).getD []) v2 w)⟩)

/-- Revision src/unnamed/part_001 removeEdge: explicit has checks on both
vertices, then Map.delete on the origin edge map, whose boolean result
(whether the key was present) is returned. -/
def removeEdge {V W : Type} [DecidableEq V] (g : DWG V W) (v1 v2 : V) :
    Except GErr Bool × DWG V W :=
  if mapHas g.adjList v1 = false then (Except.error GErr.unknownOrigin, g)
  else if mapHas g.adjList v2 = false then (Except.error GErr.unknownDestination, g)
  else
    (Except.ok (mapHas ((mapGet g.adjList v1).getD []) v2),
     ⟨mapSet g.adjList v1 (mapDelete ((mapGet g.adjList v1).getD []) v2)⟩)

/-- Revision src/unnamed/part_001 getWeight: explicit has checks on both
vertices (an absent destination vertex throws the Second vertex error),
then an explicit edge presence check (No such edge), then the weight is
returned, whatever its value. -/
def getWeight {V W : Type} [DecidableEq V] (g : DWG V W) (v1 v2 : V) :
    Except GErr W :=
  if mapHas g.adjList v1 = false then Except.error GErr.unknownOrigin
  else if mapHas g.adjList v2 = false then Except.error GErr.unknownDestination
  else
    match mapGet ((mapGet g.adjList v1).getD []) v2 with
    | none => Except.error GErr.edgeNotFound
    | some w => Except.ok w

end Replace

/-- Representation invariant of JavaScript Maps: no duplicate keys, in the
outer map and in every inner edge map. -/
def WF {V W : Type} [DecidableEq V] (g : DWG V W) : Prop :=
  (keysOf g.adjList).Nodup ∧ ∀ e ∈ g.adjList, (keysOf e.2).Nodup

instance {V W : Type} [DecidableEq V] (g : DWG V W) : Decidable (WF g) :=
  decidable_of_iff
    ((keysOf g.adjList).Nodup ∧ ∀ e ∈ g.adjList, (keysOf e.2).Nodup) Iff.rfl

/-- No dangling destinations: every destination key of every edge map is a
vertex of the graph. -/
def noDangling {V W : Type} [DecidableEq V] (g : DWG V W) : Prop :=
  ∀ e ∈ g.adjList, ∀ d ∈ keysOf e.2, mapHas g.adjList d = true

/-- Vertex set observations agree between two graph states: getAllVertices,
vertexCount and has answer the same on both. -/
def framePreserved {V W : Type} [DecidableEq V] (g1 g2 : DWG V W) : Prop :=
  getAllVertices g1 = getAllVertices g2 ∧
  vertexCount g1 = vertexCount g2 ∧
  ∀ x, has g1 x = has g2 x

/-- States reachable from the empty graph by the mutating operations of
the Replace revision (src/unnamed/part_001); query operations do not
mutate. -/
inductive ReachableB {V W : Type} [DecidableEq V] : DWG V W → Prop where
  | empty : ReachableB ⟨[]⟩
  | addVertex (g : DWG V W) (v : V) :
      ReachableB g → ReachableB (Replace.addVertex g v).2
  | addEdge (g : DWG V W) (v1 v2 : V) (w : W) :
      ReachableB g → ReachableB (Replace.addEdge g v1 v2 w).2
  | removeEdge (g : DWG V W) (v1 v2 : V) :
      ReachableB g → ReachableB (Replace.removeEdge g v1 v2).2
  | removeVertex (g : DWG V W) (v : V) :
      ReachableB g → ReachableB (Replace.removeVertex g v).2

/-- States reachable from the empty graph by the mutating operations of
either revision, error outcomes included (the post state of a throwing
call is still reached). -/
inductive ReachableAny {V W : Type} [DecidableEq V] : DWG V W → Prop where
  | empty : ReachableAny ⟨[]⟩
  | addVertexA (g : DWG V W) (v : V) :
      ReachableAny g → ReachableAny (Strict.addVertex g v).2
  | addEdgeA (g : DWG V W) (v1 v2 : V) (w : W) :
      ReachableAny g → ReachableAny (Strict.addEdge g v1 v2 w).2
  | removeEdgeA (falsy : W → Bool) (g : DWG V W) (v1 v2 : V) :
      ReachableAny g → ReachableAny (Strict.removeEdge falsy g v1 v2).2
  | removeVertexA (falsy : W → Bool) (g : DWG V W) (v : V) :
      ReachableAny g → ReachableAny (Strict.removeVertex falsy g v).2
  | addVertexB (g : DWG V W) (v : V) :
      ReachableAny g → ReachableAny (Replace.addVertex g v).2
  | addEdgeB (g : DWG V W) (v1 v2 : V) (w : W) :
      ReachableAny g → ReachableAny (Replace.addEdge g v1 v2 w).2
  | removeEdgeB (g : DWG V W) (v1 v2 : V) :
      ReachableAny g → ReachableAny (Replace.removeEdge g v1 v2).2
  | removeVertexB (g : DWG V W) (v : V) :
      ReachableAny g → ReachableAny (Replace.removeVertex g v).2

section MapLemmas

variable {V A B : Type} [DecidableEq V]

theorem mapGet_mapSet_self (m : List (V × A)) (k : V) (a : A) :
    mapGet (mapSet m k a) k = some a := by
  induction m with
  | nil => simp [mapSet, mapGet]
  | cons e rest ih =>
    obtain ⟨k1, a1⟩ := e
    by_cases h : k = k1
    · simp [mapSet, h, mapGet]
    · simp [mapSet, h, mapGet, ih]

theorem mapGet_mapSet_ne (m : List (V × A)) {k k0 : V} (a : A) (h : k0 ≠ k) :
    mapGet (mapSet m k a) k0 = mapGet m k0 := by
  induction m with
  | nil => simp [mapSet, mapGet, h]
  | cons e rest ih =>
    obtain ⟨k1, a1⟩ := e
    by_cases h1 : k = k1
    · subst h1; simp [mapSet, mapGet, h]
    · by_cases h2 : k0 = k1 <;> simp [mapSet, mapGet, h1, h2, ih]

theorem mapGet_mapDelete_ne (m : List (V × A)) {k k0 : V} (h : k0 ≠ k) :
    mapGet (mapDelete m k) k0 = mapGet m k0 := by
  induction m with
  | nil => simp [mapDelete]
  | cons e rest ih =>
    obtain ⟨k1, a1⟩ := e
    by_cases h1 : k = k1
    · subst h1; simp [mapDelete, mapGet, h]
    · by_cases h2 : k0 = k1 <;> simp [mapDelete, mapGet, h1, h2, ih]

theorem mapDelete_sublist (m : List (V × A)) (k : V) :
    (mapDelete m k).Sublist m := by
  induction m with
  | nil => simp [mapDelete]
  | cons e rest ih =>
    obtain ⟨k1, a1⟩ := e
    by_cases h : k = k1
    · simp only [mapDelete, if_pos h]
      exact List.sublist_cons_self (k1, a1) rest
    · simp only [mapDelete, if_neg h]
      exact ih.cons₂ (k1, a1)

theorem keysOf_mapDelete_sublist (m : List (V × A)) (k : V) :
    (keysOf (mapDelete m k)).Sublist (keysOf m) :=
  (mapDelete_sublist m k).map Prod.fst

theorem mapGet_eq_none_iff (m : List (V × A)) (k : V) :
    mapGet m k = none ↔ k ∉ keysOf m := by
  induction m with
  | nil => simp [mapGet, keysOf]
  | cons e rest ih =>
    obtain ⟨k1, a1⟩ := e
    by_cases h : k = k1 <;> simp [mapGet, keysOf, h, ih, keysOf] at *

theorem mapHas_cons_ne {k k1 : V} (a1 : A) (rest : List (V × A)) (h : k ≠ k1) :
    mapHas ((k1, a1) :: rest) k = mapHas rest k := by
  simp [mapHas, mapGet, h]

theorem mapHas_cons_self (k1 : V) (a1 : A) (rest : List (V × A)) :
    mapHas ((k1, a1) :: rest) k1 = true := by
  simp [mapHas, mapGet]

theorem mapGet_eq_some_mem {m : List (V × A)} {k : V} {a : A}
    (h : mapGet m k = some a) : (k, a) ∈ m := by
  induction m with
  | nil => simp [mapGet] at h
  | cons e rest ih =>
    obtain ⟨k1, a1⟩ := e
    by_cases h1 : k = k1
    · subst h1
      simp [mapGet] at h
      subst h
      exact List.mem_cons_self _ _
    · simp [mapGet, h1] at h
      exact List.mem_cons_of_mem _ (ih h)

theorem mapHas_iff_mem (m : List (V × A)) (k : V) :
    mapHas m k = true ↔ k ∈ keysOf m := by
  cases hget : mapGet m k with
  | none =>
    have hk := (mapGet_eq_none_iff m k).mp hget
    simp [mapHas, hget, hk]
  | some a =>
    have hk : k ∈ keysOf m := List.mem_map_of_mem Prod.fst (mapGet_eq_some_mem hget)
    simp [mapHas, hget, hk]

theorem mapGet_of_mem_nodup {m : List (V × A)} {k : V} {a : A}
    (hnd : (keysOf m).Nodup) (hm : (k, a) ∈ m) : mapGet m k = some a := by
  induction m with
  | nil => simp at hm
  | cons e rest ih =>
    obtain ⟨k1, a1⟩ := e
    simp only [keysOf, List.map_cons, List.nodup_cons] at hnd
    rcases List.mem_cons.mp hm with heq | htail
    · rw [Prod.mk.injEq] at heq
      obtain ⟨h1, h2⟩ := heq
      subst h1; subst h2
      simp [mapGet]
    · have hk : k ≠ k1 := by
        intro hkk
        subst hkk
        exact hnd.1 (List.mem_map_of_mem Prod.fst htail)
      simp [mapGet, hk]
      exact ih hnd.2 htail

theorem keysOf_mapSet_of_has (m : List (V × A)) (k : V) (a : A)
    (h : mapHas m k = true) : keysOf (mapSet m k a) = keysOf m := by
  induction m with
  | nil => simp [mapHas, mapGet] at h
  | cons e rest ih =>
    obtain ⟨k1, a1⟩ := e
    by_cases h1 : k = k1
    · subst h1; simp [mapSet, keysOf]
    · rw [mapHas_cons_ne a1 rest h1] at h
      simp [mapSet, h1, keysOf] at ih ⊢
      exact ih h

theorem keysOf_mapSet_of_not_has (m : List (V × A)) (k : V) (a : A)
    (h : mapHas m k = false) : keysOf (mapSet m k a) = keysOf m ++ [k] := by
  induction m with
  | nil => simp [mapSet, keysOf]
  | cons e rest ih =>
    obtain ⟨k1, a1⟩ := e
    by_cases h1 : k = k1
    · subst h1; rw [mapHas_cons_self] at h; cases h
    · rw [mapHas_cons_ne a1 rest h1] at h
      simp [mapSet, h1, keysOf] at ih ⊢
      exact ih h

theorem nodup_keysOf_mapSet (m : List (V × A)) (k : V) (a : A)
    (hnd : (keysOf m).Nodup) : (keysOf (mapSet m k a)).Nodup := by
  cases hhas : mapHas m k with
  | true => rw [keysOf_mapSet_of_has m k a hhas]; exact hnd
  | false =>
    rw [keysOf_mapSet_of_not_has m k a hhas]
    have hk : k ∉ keysOf m := by
      intro hmem
      rw [← mapHas_iff_mem] at hmem
      rw [hmem] at hhas
      cases hhas
    simp [List.nodup_append, hnd, hk]

theorem nodup_keysOf_mapDelete (m : List (V × A)) (k : V)
    (hnd : (keysOf m).Nodup) : (keysOf (mapDelete m k)).Nodup :=
  (keysOf_mapDelete_sublist m k).nodup hnd

theorem mapGet_mapDelete_self (m : List (V × A)) (k : V)
    (hnd : (keysOf m).Nodup) : mapGet (mapDelete m k) k = none := by
  induction m with
  | nil => simp [mapDelete, mapGet]
  | cons e rest ih =>
    obtain ⟨k1, a1⟩ := e
    simp only [keysOf, List.map_cons, List.nodup_cons] at hnd
    by_cases h1 : k = k1
    · subst h1
      simp only [mapDelete, if_pos rfl]
      rw [mapGet_eq_none_iff]
      exact fun hmem => hnd.1 hmem
    · simp [mapDelete, h1, mapGet]
      exact ih hnd.2

theorem mem_mapSet {m : List (V × A)} {k : V} {a : A} {e : V × A}
    (h : e ∈ mapSet m k a) : e = (k, a) ∨ e ∈ m := by
  induction m with
  | nil => simp [mapSet] at h; simp [h]
  | cons e1 rest ih =>
    obtain ⟨k1, a1⟩ := e1
    by_cases h1 : k = k1
    · subst h1
      simp [mapSet] at h
      rcases h with h | h
      · left; simp [h]
      · right; exact List.mem_cons_of_mem _ h
    · simp [mapSet, h1] at h
      rcases h with h | h
      · right; simp [h]
      · rcases ih h with h2 | h2
        · left; exact h2
        · right; exact List.mem_cons_of_mem _ h2

theorem mem_mapDelete {m : List (V × A)} {k : V} {e : V × A}
    (h : e ∈ mapDelete m k) : e ∈ m :=
  (mapDelete_sublist m k).subset h

theorem length_mapSet_of_has (m : List (V × A)) (k : V) (a : A)
    (h : mapHas m k = true) : (mapSet m k a).length = m.length := by
  have := keysOf_mapSet_of_has m k a h
  have h1 : (keysOf (mapSet m k a)).length = (keysOf m).length := by rw [this]
  simpa [keysOf] using h1

theorem mapHas_eq_of_keysOf_eq {m1 : List (V × A)} {m2 : List (V × B)}
    (h : keysOf m1 = keysOf m2) (k : V) : mapHas m1 k = mapHas m2 k := by
  cases h2 : mapHas m2 k with
  | true =>
    rw [mapHas_iff_mem] at h2
    rw [mapHas_iff_mem, h]
    exact h2
  | false =>
    cases h1 : mapHas m1 k with
    | false => rfl
    | true =>
      rw [mapHas_iff_mem, h, ← mapHas_iff_mem] at h1
      rw [h1] at h2
      cases h2

theorem mapHas_mapDelete_ne {m : List (V × A)} {k k0 : V} (h : k0 ≠ k) :
    mapHas (mapDelete m k) k0 = mapHas m k0 := by
  rw [mapHas, mapGet_mapDelete_ne m h, mapHas]

theorem mem_keysOf_mapSet {m : List (V × A)} {k d : V} {a : A}
    (h : d ∈ keysOf (mapSet m k a)) : d ∈ keysOf m ∨ d = k := by
  cases hhas : mapHas m k with
  | true =>
    rw [keysOf_mapSet_of_has m k a hhas] at h
    exact Or.inl h
  | false =>
    rw [keysOf_mapSet_of_not_has m k a hhas] at h
    rcases List.mem_append.mp h with h1 | h1
    · exact Or.inl h1
    · exact Or.inr (List.mem_singleton.mp h1)

theorem not_mem_keysOf_mapDelete_self {m : List (V × A)} (k : V)
    (hnd : (keysOf m).Nodup) : k ∉ keysOf (mapDelete m k) := by
  rw [← mapGet_eq_none_iff]
  exact mapGet_mapDelete_self m k hnd

theorem mapGet_eq_none_of_has_false {m : List (V × A)} {k : V}
    (h : mapHas m k = false) : mapGet m k = none := by
  cases hg : mapGet m k with
  | none => rfl
  | some a =>
    rw [mapHas, hg] at h
    cases h

theorem mapSet_eq_append_of_not_has {m : List (V × A)} {k : V} (a : A)
    (h : mapHas m k = false) : mapSet m k a = m ++ [(k, a)] := by
  induction m with
  | nil => simp [mapSet]
  | cons e rest ih =>
    obtain ⟨k1, a1⟩ := e
    by_cases h1 : k = k1
    · subst h1
      rw [mapHas_cons_self] at h
      cases h
    · rw [mapHas_cons_ne a1 rest h1] at h
      simp [mapSet, h1, ih h]

theorem sum_innerLens_mapSet {W : Type} {m : List (V × List (V × W))} {k : V}
    {em b : List (V × W)} (hget : mapGet m k = some em)
    (hlen : b.length = em.length) :
    ((mapSet m k b).map (fun e => e.2.length)).sum
      = (m.map (fun e => e.2.length)).sum := by
  induction m with
  | nil => simp [mapGet] at hget
  | cons e rest ih =>
    obtain ⟨k1, a1⟩ := e
    by_cases h : k = k1
    · subst h
      simp [mapGet] at hget
      subst hget
      simp [mapSet, hlen]
    · simp [mapGet, h] at hget
      simp [mapSet, h, ih hget]

end MapLemmas

section CleanLemmas

variable {V W : Type} [DecidableEq V]

theorem keysOf_clean (m : List (V × List (V × W))) (v : V) :
    keysOf (m.map (fun e => if e.1 = v then e else (e.1, mapDelete e.2 v)))
      = keysOf m := by
  induction m with
  | nil => rfl
  | cons e rest ih =>
    obtain ⟨k1, a1⟩ := e
    by_cases hv : k1 = v <;> simp [keysOf, hv] at ih ⊢ <;> exact ih

theorem clean_map_eq (m : List (V × List (V × W))) (v : V) :
    m.map (fun e => if e.1 = v then e else (e.1, mapDelete e.2 v))
      = m.map (fun e => (e.1, if e.1 = v then e.2 else mapDelete e.2 v)) := by
  induction m with
  | nil => rfl
  | cons e rest ih =>
    obtain ⟨k1, a1⟩ := e
    by_cases hv : k1 = v <;> simp [hv, ih]

theorem mapGet_map_entry {A B : Type} (f : V → A → B) (m : List (V × A)) (k : V) :
    mapGet (m.map (fun e => (e.1, f e.1 e.2))) k = (mapGet m k).map (f k) := by
  induction m with
  | nil => simp [mapGet]
  | cons e rest ih =>
    obtain ⟨k1, a1⟩ := e
    by_cases h : k = k1
    · subst h; simp [mapGet]
    · simp [mapGet, h, ih]

theorem mapGet_clean (m : List (V × List (V × W))) (v d : V) :
    mapGet (m.map (fun e => if e.1 = v then e else (e.1, mapDelete e.2 v))) d
      = (mapGet m d).map (fun em => if d = v then em else mapDelete em v) := by
  rw [clean_map_eq]
  exact mapGet_map_entry (fun k a => if k = v then a else mapDelete a v) m d

end CleanLemmas

section WFLemmas

variable {V W : Type} [DecidableEq V]

theorem wf_empty : WF (⟨[]⟩ : DWG V W) := by
  constructor
  · simp [keysOf]
  · intro e he
    simp at he

theorem nd_empty : noDangling (⟨[]⟩ : DWG V W) := by
  intro e he
  simp at he

theorem wf_outer_set {g : DWG V W} (hwf : WF g) (v : V) {b : List (V × W)}
    (hb : (keysOf b).Nodup) : WF (⟨mapSet g.adjList v b⟩ : DWG V W) := by
  refine ⟨nodup_keysOf_mapSet _ _ _ hwf.1, ?_⟩
  intro e he
  rcases mem_mapSet he with heq | hmem
  · rw [heq]
    exact hb
  · exact hwf.2 e hmem

theorem wf_outer_delete {g : DWG V W} (hwf : WF g) (v : V) :
    WF (⟨mapDelete g.adjList v⟩ : DWG V W) :=
  ⟨nodup_keysOf_mapDelete _ _ hwf.1, fun e he => hwf.2 e (mem_mapDelete he)⟩

theorem wf_strict_addVertex (g : DWG V W) (v : V) (hwf : WF g) :
    WF (Strict.addVertex g v).2 := by
  rw [Strict.addVertex]
  by_cases h : mapHas g.adjList v
  · simp [h]
    exact hwf
  · simp [h]
    exact wf_outer_set hwf v (by simp [keysOf])

theorem wf_strict_addEdge (g : DWG V W) (v1 v2 : V) (w : W) (hwf : WF g) :
    WF (Strict.addEdge g v1 v2 w).2 := by
  cases hget : mapGet g.adjList v1 with
  | none =>
    simp [Strict.addEdge, hget]
    exact hwf
  | some em =>
    by_cases h2 : mapHas g.adjList v2
    · simp [Strict.addEdge, hget, h2]
      have hem : (keysOf em).Nodup := hwf.2 (v1, em) (mapGet_eq_some_mem hget)
      exact wf_outer_set hwf v1 (nodup_keysOf_mapSet _ _ _ hem)
    · simp [Strict.addEdge, hget, h2]
      exact hwf

theorem wf_strict_removeEdge (falsy : W → Bool) (g : DWG V W) (v1 v2 : V)
    (hwf : WF g) : WF (Strict.removeEdge falsy g v1 v2).2 := by
  cases hget : mapGet g.adjList v1 with
  | none =>
    simp [Strict.removeEdge, hget]
    exact hwf
  | some em =>
    cases hw : mapGet em v2 with
    | none =>
      simp [Strict.removeEdge, hget, hw]
      exact hwf
    | some w =>
      by_cases hf : falsy w
      · simp [Strict.removeEdge, hget, hw, hf]
        exact hwf
      · simp [Strict.removeEdge, hget, hw, hf]
        have hem : (keysOf em).Nodup := hwf.2 (v1, em) (mapGet_eq_some_mem hget)
        exact wf_outer_set hwf v1 (nodup_keysOf_mapDelete _ _ hem)

theorem wf_strict_removeLoop (falsy : W → Bool) (g : DWG V W) (v : V)
    (ds : List V) (hwf : WF g) : WF (Strict.removeLoop falsy g v ds).2 := by
  induction ds generalizing g with
  | nil => exact hwf
  | cons d rest ih =>
    have hstep := wf_strict_removeEdge falsy g d v hwf
    rcases hcall : Strict.removeEdge falsy g d v with ⟨r, g1⟩
    rw [hcall] at hstep
    cases r with
    | ok u =>
      simp [Strict.removeLoop, hcall]
      exact ih g1 hstep
    | error e =>
      simp [Strict.removeLoop, hcall]
      exact hstep

theorem wf_strict_removeVertex (falsy : W → Bool) (g : DWG V W) (v : V)
    (hwf : WF g) : WF (Strict.removeVertex falsy g v).2 := by
  cases hget : mapGet g.adjList v with
  | none =>
    simp [Strict.removeVertex, hget]
    exact hwf
  | some em =>
    have hloop := wf_strict_removeLoop falsy g v (em.map Prod.fst) hwf
    rcases hcall : Strict.removeLoop falsy g v (em.map Prod.fst) with ⟨r, g1⟩
    rw [hcall] at hloop
    cases r with
    | ok u =>
      simp [Strict.removeVertex, hget, hcall]
      exact wf_outer_delete hloop v
    | error e =>
      simp [Strict.removeVertex, hget, hcall]
      exact hloop

theorem wf_clean (g : DWG V W) (v : V) (hwf : WF g) :
    WF (⟨g.adjList.map
        (fun e => if e.1 = v then e else (e.1, mapDelete e.2 v))⟩ : DWG V W) := by
  constructor
  · rw [keysOf_clean]
    exact hwf.1
  · intro e he
    rcases List.mem_map.mp he with ⟨a, ha, hfa⟩
    by_cases hav : a.1 = v
    · rw [if_pos hav] at hfa
      rw [← hfa]
      exact hwf.2 a ha
    · rw [if_neg hav] at hfa
      rw [← hfa]
      exact nodup_keysOf_mapDelete _ _ (hwf.2 a ha)

theorem wf_replace_removeVertex (g : DWG V W) (v : V) (hwf : WF g) :
    WF (Replace.removeVertex g v).2 := by
  rw [Replace.removeVertex]
  by_cases h : mapHas g.adjList v
  · simp [h]
    exact wf_outer_delete (wf_clean g v hwf) v
  · simp [h]
    exact hwf

theorem wf_replace_addVertex (g : DWG V W) (v : V) (hwf : WF g) :
    WF (Replace.addVertex g v).2 := by
  rw [Replace.addVertex]
  by_cases h : mapHas g.adjList v
  · simp [h]
    exact wf_outer_set (wf_replace_removeVertex g v hwf) v (by simp [keysOf])
  · simp [h]
    exact wf_outer_set hwf v (by simp [keysOf])

theorem wf_replace_addEdge (g : DWG V W) (v1 v2 : V) (w : W) (hwf : WF g) :
    WF (Replace.addEdge g v1 v2 w).2 := by
  rw [Replace.addEdge]
  by_cases h1 : mapHas g.adjList v1
  · by_cases h2 : mapHas g.adjList v2
    · simp [h1, h2]
      cases hget : mapGet g.adjList v1 with
      | none =>
        rw [mapHas, hget] at h1
        cases h1
      | some em =>
        have hem : (keysOf em).Nodup := hwf.2 (v1, em) (mapGet_eq_some_mem hget)
        simpa [hget] using wf_outer_set hwf v1 (nodup_keysOf_mapSet _ v2 w hem)
    · simp [h1, h2]
      exact hwf
  · simp [h1]
    exact hwf

theorem wf_replace_removeEdge (g : DWG V W) (v1 v2 : V) (hwf : WF g) :
    WF (Replace.removeEdge g v1 v2).2 := by
  rw [Replace.removeEdge]
  by_cases h1 : mapHas g.adjList v1
  · by_cases h2 : mapHas g.adjList v2
    · simp [h1, h2]
      cases hget : mapGet g.adjList v1 with
      | none =>
        rw [mapHas, hget] at h1
        cases h1
      | some em =>
        have hem : (keysOf em).Nodup := hwf.2 (v1, em) (mapGet_eq_some_mem hget)
        simpa [hget] using wf_outer_set hwf v1 (nodup_keysOf_mapDelete _ v2 hem)
    · simp [h1, h2]
      exact hwf
  · simp [h1]
    exact hwf

theorem reachAny_wf {g : DWG V W} (h : ReachableAny g) : WF g := by
  induction h with
  | empty => exact wf_empty
  | addVertexA g v _ ih => exact wf_strict_addVertex g v ih
  | addEdgeA g v1 v2 w _ ih => exact wf_strict_addEdge g v1 v2 w ih
  | removeEdgeA falsy g v1 v2 _ ih => exact wf_strict_removeEdge falsy g v1 v2 ih
  | removeVertexA falsy g v _ ih => exact wf_strict_removeVertex falsy g v ih
  | addVertexB g v _ ih => exact wf_replace_addVertex g v ih
  | addEdgeB g v1 v2 w _ ih => exact wf_replace_addEdge g v1 v2 w ih
  | removeEdgeB g v1 v2 _ ih => exact wf_replace_removeEdge g v1 v2 ih
  | removeVertexB g v _ ih => exact wf_replace_removeVertex g v ih

end WFLemmas

section NoDanglingLemmas

variable {V W : Type} [DecidableEq V]

theorem nd_replace_addEdge (g : DWG V W) (v1 v2 : V) (w : W)
    (hnd : noDangling g) : noDangling (Replace.addEdge g v1 v2 w).2 := by
  by_cases h1 : mapHas g.adjList v1
  · by_cases h2 : mapHas g.adjList v2
    · cases hget : mapGet g.adjList v1 with
      | none =>
        rw [mapHas, hget] at h1
        cases h1
      | some em =>
        simp [Replace.addEdge, h1, h2, hget]
        intro e he d hd
        have hkeys : keysOf (mapSet g.adjList v1 (mapSet em v2 w))
            = keysOf g.adjList := keysOf_mapSet_of_has _ _ _ h1
        rw [mapHas_eq_of_keysOf_eq hkeys d]
        rcases mem_mapSet he with heq | hmem
        · rw [heq] at hd
          rcases mem_keysOf_mapSet hd with hd1 | hd1
          · exact hnd (v1, em) (mapGet_eq_some_mem hget) d hd1
          · rw [hd1]
            exact h2
        · exact hnd e hmem d hd
    · simp [Replace.addEdge, h1, h2]
      exact hnd
  · simp [Replace.addEdge, h1]
    exact hnd

theorem nd_replace_removeEdge (g : DWG V W) (v1 v2 : V)
    (hnd : noDangling g) : noDangling (Replace.removeEdge g v1 v2).2 := by
  by_cases h1 : mapHas g.adjList v1
  · by_cases h2 : mapHas g.adjList v2
    · cases hget : mapGet g.adjList v1 with
      | none =>
        rw [mapHas, hget] at h1
        cases h1
      | some em =>
        simp [Replace.removeEdge, h1, h2, hget]
        intro e he d hd
        have hkeys : keysOf (mapSet g.adjList v1 (mapDelete em v2))
            = keysOf g.adjList := keysOf_mapSet_of_has _ _ _ h1
        rw [mapHas_eq_of_keysOf_eq hkeys d]
        rcases mem_mapSet he with heq | hmem
        · rw [heq] at hd
          have hd1 : d ∈ keysOf em := (keysOf_mapDelete_sublist em v2).subset hd
          exact hnd (v1, em) (mapGet_eq_some_mem hget) d hd1
        · exact hnd e hmem d hd
    · simp [Replace.removeEdge, h1, h2]
      exact hnd
  · simp [Replace.removeEdge, h1]
    exact hnd

theorem nd_clean_delete (m : List (V × List (V × W))) (v : V)
    (hnd1 : (keysOf m).Nodup) (hnd2 : ∀ e ∈ m, (keysOf e.2).Nodup)
    (hnd : ∀ e ∈ m, ∀ d ∈ keysOf e.2, mapHas m d = true) :
    ∀ e ∈ mapDelete
        (m.map (fun e => if e.1 = v then e else (e.1, mapDelete e.2 v))) v,
      ∀ d ∈ keysOf e.2,
        mapHas (mapDelete
          (m.map (fun e => if e.1 = v then e else (e.1, mapDelete e.2 v))) v)
          d = true := by
  intro e he d hd
  have hclkeys : keysOf
      (m.map (fun e => if e.1 = v then e else (e.1, mapDelete e.2 v)))
      = keysOf m := keysOf_clean m v
  have hclnodup : (keysOf
      (m.map (fun e => if e.1 = v then e else (e.1, mapDelete e.2 v)))).Nodup := by
    rw [hclkeys]
    exact hnd1
  have hecl : e ∈ m.map (fun e => if e.1 = v then e else (e.1, mapDelete e.2 v)) :=
    mem_mapDelete he
  rcases List.mem_map.mp hecl with ⟨a, ha, hfa⟩
  by_cases hav : a.1 = v
  · exfalso
    rw [if_pos hav] at hfa
    have hkey : e.1 ∈ keysOf (mapDelete
        (m.map (fun e => if e.1 = v then e else (e.1, mapDelete e.2 v))) v) :=
      List.mem_map_of_mem Prod.fst he
    have hev : e.1 = v := by
      rw [← hfa]
      exact hav
    rw [hev] at hkey
    exact not_mem_keysOf_mapDelete_self v hclnodup hkey
  · rw [if_neg hav] at hfa
    have hd2 : d ∈ keysOf (mapDelete a.2 v) := by
      rw [← hfa] at hd
      exact hd
    have hdin : d ∈ keysOf a.2 := (keysOf_mapDelete_sublist a.2 v).subset hd2
    have hdv : d ≠ v := by
      intro hdv
      rw [hdv] at hd2
      exact not_mem_keysOf_mapDelete_self v (hnd2 a ha) hd2
    rw [mapHas_mapDelete_ne hdv, mapHas_eq_of_keysOf_eq hclkeys d]
    exact hnd a ha d hdin

theorem nd_replace_removeVertex (g : DWG V W) (v : V) (hwf : WF g)
    (hnd : noDangling g) : noDangling (Replace.removeVertex g v).2 := by
  by_cases h : mapHas g.adjList v
  · simp [Replace.removeVertex, h]
    exact nd_clean_delete g.adjList v hwf.1 hwf.2 hnd
  · simp [Replace.removeVertex, h]
    exact hnd

theorem nd_set_fresh (g1 : DWG V W) (v : V) (hnd : noDangling g1)
    (hfresh : mapHas g1.adjList v = false) :
    noDangling (⟨mapSet g1.adjList v []⟩ : DWG V W) := by
  intro e he d hd
  rcases mem_mapSet he with heq | hmem
  · rw [heq] at hd
    simp [keysOf] at hd
  · have hg1 : mapHas g1.adjList d = true := hnd e hmem d hd
    rw [mapHas_iff_mem] at hg1 ⊢
    rw [keysOf_mapSet_of_not_has _ _ _ hfresh]
    exact List.mem_append_left _ hg1

theorem nd_replace_addVertex (g : DWG V W) (v : V) (hwf : WF g)
    (hnd : noDangling g) : noDangling (Replace.addVertex g v).2 := by
  rw [Replace.addVertex]
  by_cases h : mapHas g.adjList v
  · simp [h]
    apply nd_set_fresh
    · exact nd_replace_removeVertex g v hwf hnd
    · simp [Replace.removeVertex, h]
      rw [mapHas, mapGet_mapDelete_self]
      · rfl
      · rw [keysOf_clean]
        exact hwf.1
  · simp [h]
    exact nd_set_fresh g v hnd (by simp [h])

theorem reachB_inv {g : DWG V W} (h : ReachableB g) : WF g ∧ noDangling g := by
  induction h with
  | empty => exact ⟨wf_empty, nd_empty⟩
  | addVertex g v _ ih =>
    exact ⟨wf_replace_addVertex g v ih.1, nd_replace_addVertex g v ih.1 ih.2⟩
  | addEdge g v1 v2 w _ ih =>
    exact ⟨wf_replace_addEdge g v1 v2 w ih.1, nd_replace_addEdge g v1 v2 w ih.2⟩
  | removeEdge g v1 v2 _ ih =>
    exact ⟨wf_replace_removeEdge g v1 v2 ih.1, nd_replace_removeEdge g v1 v2 ih.2⟩
  | removeVertex g v _ ih =>
    exact ⟨wf_replace_removeVertex g v ih.1, nd_replace_removeVertex g v ih.1 ih.2⟩

end NoDanglingLemmas

section FrameLemmas

variable {V W : Type} [DecidableEq V]

theorem framePreserved_of_keys {g1 g2 : DWG V W}
    (h : getAllVertices g1 = getAllVertices g2) : framePreserved g1 g2 := by
  refine ⟨h, ?_, ?_⟩
  · have hlen := congrArg List.length h
    simpa [getAllVertices, vertexCount] using hlen
  · intro x
    exact mapHas_eq_of_keysOf_eq h x

theorem keys_strict_addEdge (g : DWG V W) (v1 v2 : V) (w : W) :
    getAllVertices (Strict.addEdge g v1 v2 w).2 = getAllVertices g := by
  cases hget : mapGet g.adjList v1 with
  | none => simp [Strict.addEdge, hget]
  | some em =>
    by_cases h2 : mapHas g.adjList v2
    · simp [Strict.addEdge, hget, h2, getAllVertices]
      have h1 : mapHas g.adjList v1 = true := by
        rw [mapHas, hget]
        rfl
      exact keysOf_mapSet_of_has _ _ _ h1
    · simp [Strict.addEdge, hget, h2]

theorem keys_replace_addEdge (g : DWG V W) (v1 v2 : V) (w : W) :
    getAllVertices (Replace.addEdge g v1 v2 w).2 = getAllVertices g := by
  by_cases h1 : mapHas g.adjList v1
  · by_cases h2 : mapHas g.adjList v2
    · simp [Replace.addEdge, h1, h2, getAllVertices]
      exact keysOf_mapSet_of_has _ _ _ h1
    · simp [Replace.addEdge, h1, h2]
  · simp [Replace.addEdge, h1]

theorem keys_strict_removeEdge (falsy : W → Bool) (g : DWG V W) (v1 v2 : V) :
    getAllVertices (Strict.removeEdge falsy g v1 v2).2 = getAllVertices g := by
  cases hget : mapGet g.adjList v1 with
  | none => simp [Strict.removeEdge, hget]
  | some em =>
    have h1 : mapHas g.adjList v1 = true := by
      rw [mapHas, hget]
      rfl
    cases hw : mapGet em v2 with
    | none => simp [Strict.removeEdge, hget, hw]
    | some w =>
      by_cases hf : falsy w
      · simp [Strict.removeEdge, hget, hw, hf]
      · simp [Strict.removeEdge, hget, hw, hf, getAllVertices]
        exact keysOf_mapSet_of_has _ _ _ h1

theorem keys_replace_removeEdge (g : DWG V W) (v1 v2 : V) :
    getAllVertices (Replace.removeEdge g v1 v2).2 = getAllVertices g := by
  by_cases h1 : mapHas g.adjList v1
  · by_cases h2 : mapHas g.adjList v2
    · simp [Replace.removeEdge, h1, h2, getAllVertices]
      exact keysOf_mapSet_of_has _ _ _ h1
    · simp [Replace.removeEdge, h1, h2]
  · simp [Replace.removeEdge, h1]

end FrameLemmas

section Claims

variable {V W : Type} [DecidableEq V]

/-- Claim C10: in both revisions, addEdge and removeEdge never change the
vertex set, whether they succeed or throw: getAllVertices, vertexCount and
has observe the same vertices on the post state as on the pre state.  The
getWeight methods only read; they are embedded as pure functions with no
post state, so they preserve the vertex set by construction. -/
theorem claim_c10_frame (falsy : W → Bool) (g : DWG V W) (v1 v2 : V) (w : W) :
    framePreserved (Strict.addEdge g v1 v2 w).2 g ∧
    framePreserved (Replace.addEdge g v1 v2 w).2 g ∧
    framePreserved (Strict.removeEdge falsy g v1 v2).2 g ∧
    framePreserved (Replace.removeEdge g v1 v2).2 g :=
  ⟨framePreserved_of_keys (keys_strict_addEdge g v1 v2 w),
   framePreserved_of_keys (keys_replace_addEdge g v1 v2 w),
   framePreserved_of_keys (keys_strict_removeEdge falsy g v1 v2),
   framePreserved_of_keys (keys_replace_removeEdge g v1 v2)⟩

/-- Claim C7: under the strict policy of src/src/dwg.ts, addVertex of a
present vertex fails with the duplicate vertex error and leaves the graph
unchanged; of an absent vertex it succeeds, and immediately afterwards the
vertex is present with an empty outgoing edge list (the source returns
this, embedded as the threaded post state). -/
theorem claim_c7_strict_addVertex (g : DWG V W) (v : V) :
    (mapHas g.adjList v = true →
      Strict.addVertex g v = (Except.error GErr.duplicateVertex, g)) ∧
    (mapHas g.adjList v = false →
      (Strict.addVertex g v).1 = Except.ok () ∧
      has (Strict.addVertex g v).2 v = true ∧
      getEdges (Strict.addVertex g v).2 v = []) := by
  constructor
  · intro h
    simp [Strict.addVertex, h]
  · intro h
    have hget : mapGet g.adjList v = none := mapGet_eq_none_of_has_false h
    refine ⟨?_, ?_, ?_⟩
    · simp [Strict.addVertex, mapHas, hget]
    · simp [Strict.addVertex, mapHas, hget, has, mapGet_mapSet_self]
    · simp [Strict.addVertex, mapHas, hget, getEdges, mapGet_mapSet_self]

/-- Witness for claim C7 at concrete inputs: a duplicate insertion of
vertex 2 and a fresh insertion of vertex 5. -/
theorem claim_c7_witness :
    (mapHas (⟨[(2, [])]⟩ : DWG Nat Nat).adjList 2 = true ∧
      Strict.addVertex (⟨[(2, [])]⟩ : DWG Nat Nat) 2
        = (Except.error GErr.duplicateVertex, ⟨[(2, [])]⟩)) ∧
    (mapHas (⟨[(2, [])]⟩ : DWG Nat Nat).adjList 5 = false ∧
      ((Strict.addVertex (⟨[(2, [])]⟩ : DWG Nat Nat) 5).1 = Except.ok () ∧
       has (Strict.addVertex (⟨[(2, [])]⟩ : DWG Nat Nat) 5).2 5 = true ∧
       getEdges (Strict.addVertex (⟨[(2, [])]⟩ : DWG Nat Nat) 5).2 5 = [])) :=
  ⟨⟨by decide, (claim_c7_strict_addVertex ⟨[(2, [])]⟩ 2).1 (by decide)⟩,
   ⟨by decide, (claim_c7_strict_addVertex ⟨[(2, [])]⟩ 5).2 (by decide)⟩⟩

/-- Claim C5: in both revisions, addEdge with an absent origin throws the
first vertex error, addEdge with a present origin and an absent
destination throws the second vertex error, and in both failure cases the
post state is exactly the pre state, so vertex set, edges and both counts
are unchanged. -/
theorem claim_c5_addEdge_error_frame (g : DWG V W) (v1 v2 : V) (w : W) :
    (mapHas g.adjList v1 = false →
      Strict.addEdge g v1 v2 w = (Except.error GErr.unknownOrigin, g) ∧
      Replace.addEdge g v1 v2 w = (Except.error GErr.unknownOrigin, g)) ∧
    (mapHas g.adjList v1 = true → mapHas g.adjList v2 = false →
      Strict.addEdge g v1 v2 w = (Except.error GErr.unknownDestination, g) ∧
      Replace.addEdge g v1 v2 w = (Except.error GErr.unknownDestination, g)) := by
  constructor
  · intro h1
    have hget : mapGet g.adjList v1 = none := mapGet_eq_none_of_has_false h1
    constructor
    · simp [Strict.addEdge, hget]
    · simp [Replace.addEdge, h1]
  · intro h1 h2
    cases hget : mapGet g.adjList v1 with
    | none =>
      rw [mapHas, hget] at h1
      cases h1
    | some em =>
      constructor
      · simp [Strict.addEdge, hget, h2]
      · simp [Replace.addEdge, h1, h2]

/-- Witness for claim C5 at concrete inputs: absent origin 1, then present
origin 2 with absent destination 3. -/
theorem claim_c5_witness :
    (mapHas (⟨[(2, [])]⟩ : DWG Nat Nat).adjList 1 = false ∧
      (Strict.addEdge (⟨[(2, [])]⟩ : DWG Nat Nat) 1 2 9
          = (Except.error GErr.unknownOrigin, ⟨[(2, [])]⟩) ∧
       Replace.addEdge (⟨[(2, [])]⟩ : DWG Nat Nat) 1 2 9
          = (Except.error GErr.unknownOrigin, ⟨[(2, [])]⟩))) ∧
    (mapHas (⟨[(2, [])]⟩ : DWG Nat Nat).adjList 2 = true ∧
     mapHas (⟨[(2, [])]⟩ : DWG Nat Nat).adjList 3 = false ∧
      (Strict.addEdge (⟨[(2, [])]⟩ : DWG Nat Nat) 2 3 9
          = (Except.error GErr.unknownDestination, ⟨[(2, [])]⟩) ∧
       Replace.addEdge (⟨[(2, [])]⟩ : DWG Nat Nat) 2 3 9
          = (Except.error GErr.unknownDestination, ⟨[(2, [])]⟩))) :=
  ⟨⟨by decide, (claim_c5_addEdge_error_frame ⟨[(2, [])]⟩ 1 2 9).1 (by decide)⟩,
   ⟨by decide, by decide,
    (claim_c5_addEdge_error_frame ⟨[(2, [])]⟩ 2 3 9).2 (by decide) (by decide)⟩⟩

/-- Claim C1, amended: getWeight as implemented in src/unnamed/part_001
throws the first vertex error when the origin is absent, throws the
second vertex error (not the no such edge error) when the origin is
present but the destination vertex is absent, throws the no such edge
error when both vertices are present but no edge joins them, and
otherwise returns the stored weight, for every weight value including
falsy ones. -/
theorem claim_c1_replace_getWeight (g : DWG V W) (v1 v2 : V) :
    (mapHas g.adjList v1 = false →
      Replace.getWeight g v1 v2 = Except.error GErr.unknownOrigin) ∧
    (mapHas g.adjList v1 = true → mapHas g.adjList v2 = false →
      Replace.getWeight g v1 v2 = Except.error GErr.unknownDestination) ∧
    (mapHas g.adjList v1 = true → mapHas g.adjList v2 = true →
      mapGet (getEdges g v1) v2 = none →
      Replace.getWeight g v1 v2 = Except.error GErr.edgeNotFound) ∧
    (∀ w : W, mapHas g.adjList v1 = true → mapHas g.adjList v2 = true →
      mapGet (getEdges g v1) v2 = some w →
      Replace.getWeight g v1 v2 = Except.ok w) := by
  refine ⟨?_, ?_, ?_, ?_⟩
  · intro h1
    simp [Replace.getWeight, h1]
  · intro h1 h2
    simp [Replace.getWeight, h1, h2]
  · intro h1 h2 he
    rw [getEdges] at he
    simp [Replace.getWeight, h1, h2, he]
  · intro w h1 h2 he
    rw [getEdges] at he
    simp [Replace.getWeight, h1, h2, he]

/-- Counterexample for claim C1 as stated: on the part_001 revision an
absent destination vertex yields the second vertex error, not the no such
edge error the claim predicates for every missing edge; and on the
src/src/dwg.ts revision a stored falsy weight (numeric zero) is reported
as the second vertex error instead of being returned. -/
theorem claim_c1_counterexample :
    Replace.getWeight (⟨[(1, [])]⟩ : DWG Nat Nat) 1 2
        = Except.error GErr.unknownDestination ∧
    (Except.error GErr.unknownDestination : Except GErr Nat)
        ≠ Except.error GErr.edgeNotFound ∧
    mapGet (getEdges (⟨[(1, [(2, 0)]), (2, [])]⟩ : DWG Nat Nat) 1) 2 = some 0 ∧
    Strict.getWeight (fun w => w == 0) (⟨[(1, [(2, 0)]), (2, [])]⟩ : DWG Nat Nat) 1 2
        = Except.error GErr.unknownDestination := by
  decide

/-- Witness for claim C1 at concrete inputs: absent origin, absent
destination, missing edge between present vertices, and a present edge
carrying the falsy weight zero. -/
theorem claim_c1_witness :
    Replace.getWeight (⟨[]⟩ : DWG Nat Nat) 1 2
        = Except.error GErr.unknownOrigin ∧
    Replace.getWeight (⟨[(1, [])]⟩ : DWG Nat Nat) 1 2
        = Except.error GErr.unknownDestination ∧
    Replace.getWeight (⟨[(1, []), (2, [])]⟩ : DWG Nat Nat) 1 2
        = Except.error GErr.edgeNotFound ∧
    Replace.getWeight (⟨[(1, [(2, 0)]), (2, [])]⟩ : DWG Nat Nat) 1 2
        = Except.ok 0 :=
  ⟨(claim_c1_replace_getWeight ⟨[]⟩ 1 2).1 (by decide),
   (claim_c1_replace_getWeight ⟨[(1, [])]⟩ 1 2).2.1 (by decide) (by decide),
   (claim_c1_replace_getWeight ⟨[(1, []), (2, [])]⟩ 1 2).2.2.1
     (by decide) (by decide) (by decide),
   (claim_c1_replace_getWeight ⟨[(1, [(2, 0)]), (2, [])]⟩ 1 2).2.2.2 0
     (by decide) (by decide) (by decide)⟩

/-- Claim C2: the src/src/dwg.ts revision of removeEdge contradicts the
claim and the test suite.  With vertices 2 and 5 both present and no edge
between them it throws the second vertex error instead of returning
false, and with a present edge of falsy weight zero it throws instead of
deleting the edge and returning true; the part_001 revision behaves as
the claim states on the same inputs. -/
theorem claim_c2_strict_removeEdge_bug :
    Strict.removeEdge (fun w => w == 0) (⟨[(2, []), (5, [])]⟩ : DWG Nat Nat) 2 5
        = (Except.error GErr.unknownDestination, ⟨[(2, []), (5, [])]⟩) ∧
    Strict.removeEdge (fun w => w == 0)
        (⟨[(2, [(5, 0)]), (5, [])]⟩ : DWG Nat Nat) 2 5
        = (Except.error GErr.unknownDestination, ⟨[(2, [(5, 0)]), (5, [])]⟩) ∧
    Replace.removeEdge (⟨[(2, []), (5, [])]⟩ : DWG Nat Nat) 2 5
        = (Except.ok false, ⟨[(2, []), (5, [])]⟩) ∧
    Replace.removeEdge (⟨[(2, [(5, 0)]), (5, [])]⟩ : DWG Nat Nat) 2 5
        = (Except.ok true, ⟨[(2, []), (5, [])]⟩) := by
  decide

/-- Claim C3: the src/src/dwg.ts revision of removeVertex contradicts the
claim, its own doc comment and the test suite.  Removing vertex 2 from
the graph with vertices 2, 5 and the single inbound edge from 5 to 2
returns true but leaves that edge in place (edgeCount 1 where the test
expects 0, and the stale destination 2 is no longer a vertex); removing
vertex 1 from a graph where 1 has an outgoing edge to 2 but no inbound
edge from 2 throws, though the claim says removeVertex never raises.  The
part_001 revision performs the full cleanup on the same input. -/
theorem claim_c3_strict_removeVertex_bug :
    Strict.removeVertex (fun w => w == 0)
        (⟨[(2, []), (5, [(2, 7)])]⟩ : DWG Nat Nat) 2
        = (Except.ok true, ⟨[(5, [(2, 7)])]⟩) ∧
    edgeCount (⟨[(5, [(2, 7)])]⟩ : DWG Nat Nat) = 1 ∧
    has (⟨[(5, [(2, 7)])]⟩ : DWG Nat Nat) 2 = false ∧
    Strict.removeVertex (fun w => w == 0)
        (⟨[(1, [(2, 7)]), (2, [])]⟩ : DWG Nat Nat) 1
        = (Except.error GErr.unknownDestination, ⟨[(1, [(2, 7)]), (2, [])]⟩) ∧
    Replace.removeVertex (⟨[(2, []), (5, [(2, 7)])]⟩ : DWG Nat Nat) 2
        = (Except.ok true, ⟨[(5, [])]⟩) := by
  decide

/-- Counterexample for claim C4 as stated: the operation sequence
addVertex 2, addVertex 5, addEdge 5 2 7, removeVertex 2 of the
src/src/dwg.ts revision, starting from the empty graph, reaches a state
where getEdges 5 still reports the edge to the removed vertex 2, so a
dangling destination is observable. -/
theorem claim_c4_counterexample :
    (Strict.removeVertex (fun w => w == 0)
      ((Strict.addEdge
        ((Strict.addVertex ((Strict.addVertex (⟨[]⟩ : DWG Nat Nat) 2).2) 5).2)
        5 2 7).2) 2).2 = ⟨[(5, [(2, 7)])]⟩ ∧
    (2, 7) ∈ getEdges (⟨[(5, [(2, 7)])]⟩ : DWG Nat Nat) 5 ∧
    has (⟨[(5, [(2, 7)])]⟩ : DWG Nat Nat) 2 = false := by
  decide

/-- Claim C4, amended: restricted to the part_001 revision, every state
reachable from the empty graph by any operation sequence has no dangling
destinations: each edge reported by getEdges points at a vertex of the
graph.  The src/src/dwg.ts revision violates this through its
removeVertex, as the counterexample shows. -/
theorem claim_c4_replace_no_dangling (g : DWG V W) (h : ReachableB g)
    (v d : V) (w : W) (hm : (d, w) ∈ getEdges g v) : has g d = true := by
  have hnd := (reachB_inv h).2
  rw [getEdges] at hm
  cases hget : mapGet g.adjList v with
  | none =>
    rw [hget] at hm
    simp at hm
  | some em =>
    rw [hget] at hm
    exact hnd (v, em) (mapGet_eq_some_mem hget) d (List.mem_map_of_mem Prod.fst hm)

/-- Witness for claim C4 at a concrete reachable state: after addVertex 1,
addVertex 2, addEdge 1 2 7 in the part_001 revision, the edge reported by
getEdges 1 points at the present vertex 2. -/
theorem claim_c4_witness :
    (2, 7) ∈ getEdges
      ((Replace.addEdge
        ((Replace.addVertex ((Replace.addVertex (⟨[]⟩ : DWG Nat Nat) 1).2) 2).2)
        1 2 7).2) 1 ∧
    has ((Replace.addEdge
        ((Replace.addVertex ((Replace.addVertex (⟨[]⟩ : DWG Nat Nat) 1).2) 2).2)
        1 2 7).2) 2 = true :=
  ⟨by decide,
   claim_c4_replace_no_dangling _
     (ReachableB.addEdge _ 1 2 7
       (ReachableB.addVertex _ 2 (ReachableB.addVertex _ 1 ReachableB.empty)))
     1 2 7 (by decide)⟩

/-- Claim C6: for every state reachable by any sequence of operations of
either revision (error outcomes included), edgeCount equals the sum of
the lengths of getEdges over all vertices currently in the graph. -/
theorem claim_c6_edgeCount_sum (g : DWG V W) (h : ReachableAny g) :
    edgeCount g
      = ((getAllVertices g).map (fun v => (getEdges g v).length)).sum := by
  have hnd : (keysOf g.adjList).Nodup := (reachAny_wf h).1
  rw [edgeCount, getAllVertices, List.map_map]
  have hcongr : ∀ e ∈ g.adjList,
      ((fun v => (getEdges g v).length) ∘ Prod.fst) e
        = (fun e => e.2.length) e := by
    intro e he
    have hget : mapGet g.adjList e.1 = some e.2 := mapGet_of_mem_nodup hnd he
    simp [Function.comp, getEdges, hget]
  rw [List.map_congr_left hcongr]

/-- Witness for claim C6 at a concrete reachable state: after addVertex 2,
addVertex 5, addEdge 2 5 9 in the src/src/dwg.ts revision. -/
theorem claim_c6_witness :
    edgeCount
      ((Strict.addEdge
        ((Strict.addVertex ((Strict.addVertex (⟨[]⟩ : DWG Nat Nat) 2).2) 5).2)
        2 5 9).2)
      = ((getAllVertices
          ((Strict.addEdge
            ((Strict.addVertex ((Strict.addVertex (⟨[]⟩ : DWG Nat Nat) 2).2) 5).2)
            2 5 9).2)).map
          (fun v =>
            (getEdges
              ((Strict.addEdge
                ((Strict.addVertex
                  ((Strict.addVertex (⟨[]⟩ : DWG Nat Nat) 2).2) 5).2)
                2 5 9).2) v).length)).sum :=
  claim_c6_edgeCount_sum _
    (ReachableAny.addEdgeA _ 2 5 9
      (ReachableAny.addVertexA _ 5 (ReachableAny.addVertexA _ 2 ReachableAny.empty)))

/-- Claim C8: under the replace policy of src/unnamed/part_001, addVertex
of an already present vertex first removes it with the cascading cleanup
of removeVertex and then stores it fresh; afterwards the vertex is
present, its outgoing edge list is empty, and no edge map of any vertex
still contains it as destination. -/
theorem claim_c8_replace_addVertex (g : DWG V W) (v : V) (hwf : WF g)
    (hv : mapHas g.adjList v = true) :
    (Replace.addVertex g v).2
        = ⟨mapSet ((Replace.removeVertex g v).2).adjList v []⟩ ∧
    has (Replace.addVertex g v).2 v = true ∧
    getEdges (Replace.addVertex g v).2 v = [] ∧
    ∀ e ∈ ((Replace.addVertex g v).2).adjList, mapHas e.2 v = false := by
  have hpost : (Replace.addVertex g v).2
      = ⟨mapSet ((Replace.removeVertex g v).2).adjList v []⟩ := by
    simp [Replace.addVertex, hv]
  refine ⟨hpost, ?_, ?_, ?_⟩
  · rw [hpost]
    simp [has, mapHas, mapGet_mapSet_self]
  · rw [hpost]
    simp [getEdges, mapGet_mapSet_self]
  · rw [hpost]
    intro e he
    have hrv : (Replace.removeVertex g v).2
        = ⟨mapDelete
            (g.adjList.map (fun e => if e.1 = v then e else (e.1, mapDelete e.2 v)))
            v⟩ := by
      simp [Replace.removeVertex, hv]
    rw [hrv] at he
    rcases mem_mapSet he with heq | hmem
    · rw [heq]
      simp [mapHas, mapGet]
    · have hclkeys : keysOf
          (g.adjList.map (fun e => if e.1 = v then e else (e.1, mapDelete e.2 v)))
          = keysOf g.adjList := keysOf_clean g.adjList v
      have hclnodup : (keysOf
          (g.adjList.map
            (fun e => if e.1 = v then e else (e.1, mapDelete e.2 v)))).Nodup := by
        rw [hclkeys]
        exact hwf.1
      have hecl : e ∈ g.adjList.map
          (fun e => if e.1 = v then e else (e.1, mapDelete e.2 v)) :=
        mem_mapDelete hmem
      rcases List.mem_map.mp hecl with ⟨a, ha, hfa⟩
      by_cases hav : a.1 = v
      · exfalso
        rw [if_pos hav] at hfa
        have hkey : e.1 ∈ keysOf (mapDelete
            (g.adjList.map
              (fun e => if e.1 = v then e else (e.1, mapDelete e.2 v))) v) :=
          List.mem_map_of_mem Prod.fst hmem
        have hev : e.1 = v := by
          rw [← hfa]
          exact hav
        rw [hev] at hkey
        exact not_mem_keysOf_mapDelete_self v hclnodup hkey
      · rw [if_neg hav] at hfa
        have hnone : mapGet (mapDelete a.2 v) v = none :=
          mapGet_mapDelete_self _ _ (hwf.2 a ha)
        rw [← hfa, mapHas]
        simp [hnone]

/-- Witness for claim C8 at a concrete input: re-adding vertex 2 to a
graph where 2 has an inbound edge from 1, a self loop and an outgoing
edge. -/
theorem claim_c8_witness :
    WF (⟨[(1, [(2, 3)]), (2, [(1, 4), (2, 5)])]⟩ : DWG Nat Nat) ∧
    mapHas (⟨[(1, [(2, 3)]), (2, [(1, 4), (2, 5)])]⟩ : DWG Nat Nat).adjList 2
      = true ∧
    ((Replace.addVertex (⟨[(1, [(2, 3)]), (2, [(1, 4), (2, 5)])]⟩ : DWG Nat Nat) 2).2
        = ⟨mapSet ((Replace.removeVertex
            (⟨[(1, [(2, 3)]), (2, [(1, 4), (2, 5)])]⟩ : DWG Nat Nat) 2).2).adjList
            2 []⟩ ∧
     has (Replace.addVertex
        (⟨[(1, [(2, 3)]), (2, [(1, 4), (2, 5)])]⟩ : DWG Nat Nat) 2).2 2 = true ∧
     getEdges (Replace.addVertex
        (⟨[(1, [(2, 3)]), (2, [(1, 4), (2, 5)])]⟩ : DWG Nat Nat) 2).2 2 = [] ∧
     ∀ e ∈ ((Replace.addVertex
        (⟨[(1, [(2, 3)]), (2, [(1, 4), (2, 5)])]⟩ : DWG Nat Nat) 2).2).adjList,
       mapHas e.2 2 = false) :=
  ⟨by decide, by decide,
   claim_c8_replace_addVertex ⟨[(1, [(2, 3)]), (2, [(1, 4), (2, 5)])]⟩ 2
     (by decide) (by decide)⟩

/-- Claim C9: with both vertices present and an edge from v1 to v2 already
stored, addEdge overwrites the weight in place: the call succeeds, the
edge count is unchanged, getEdges v1 reports exactly one entry for
destination v2 and it carries the new weight; both revisions compute the
same result here. -/
theorem claim_c9_addEdge_overwrite (g : DWG V W) (v1 v2 : V) (w w0 : W)
    (hwf : WF g) (h2 : mapHas g.adjList v2 = true)
    (he : mapGet (getEdges g v1) v2 = some w0) :
    (Replace.addEdge g v1 v2 w).1 = Except.ok () ∧
    edgeCount (Replace.addEdge g v1 v2 w).2 = edgeCount g ∧
    mapGet (getEdges (Replace.addEdge g v1 v2 w).2 v1) v2 = some w ∧
    ((getEdges (Replace.addEdge g v1 v2 w).2 v1).map Prod.fst).count v2 = 1 ∧
    Strict.addEdge g v1 v2 w = Replace.addEdge g v1 v2 w := by
  cases hget : mapGet g.adjList v1 with
  | none =>
    rw [getEdges, hget] at he
    simp [mapGet] at he
  | some em =>
    rw [getEdges, hget] at he
    simp only [Option.getD_some] at he
    have h1 : mapHas g.adjList v1 = true := by
      rw [mapHas, hget]
      rfl
    have hemv2 : mapHas em v2 = true := by
      rw [mapHas, he]
      rfl
    have hpost : (Replace.addEdge g v1 v2 w).2
        = ⟨mapSet g.adjList v1 (mapSet em v2 w)⟩ := by
      simp [Replace.addEdge, h1, h2, hget]
    have hemnd : (keysOf em).Nodup := hwf.2 (v1, em) (mapGet_eq_some_mem hget)
    refine ⟨?_, ?_, ?_, ?_, ?_⟩
    · simp [Replace.addEdge, h1, h2]
    · rw [hpost]
      simp only [edgeCount]
      exact sum_innerLens_mapSet hget (length_mapSet_of_has em v2 w hemv2)
    · rw [hpost]
      simp [getEdges, mapGet_mapSet_self]
    · rw [hpost]
      have hge : getEdges (⟨mapSet g.adjList v1 (mapSet em v2 w)⟩ : DWG V W) v1
          = mapSet em v2 w := by
        simp [getEdges, mapGet_mapSet_self]
      rw [hge]
      have hkeys : keysOf (mapSet em v2 w) = keysOf em :=
        keysOf_mapSet_of_has em v2 w hemv2
      have hnd2 : (keysOf (mapSet em v2 w)).Nodup := by
        rw [hkeys]
        exact hemnd
      have hmem : v2 ∈ keysOf (mapSet em v2 w) := by
        rw [hkeys, ← mapHas_iff_mem]
        exact hemv2
      exact List.count_eq_one_of_mem hnd2 hmem
    · simp [Strict.addEdge, Replace.addEdge, hget, h1, h2]

/-- Witness for claim C9 at a concrete input: overwriting the edge from 1
to 2 of weight 7 with weight 9. -/
theorem claim_c9_witness :
    WF (⟨[(1, [(2, 7)]), (2, [])]⟩ : DWG Nat Nat) ∧
    mapHas (⟨[(1, [(2, 7)]), (2, [])]⟩ : DWG Nat Nat).adjList 2 = true ∧
    mapGet (getEdges (⟨[(1, [(2, 7)]), (2, [])]⟩ : DWG Nat Nat) 1) 2 = some 7 ∧
    ((Replace.addEdge (⟨[(1, [(2, 7)]), (2, [])]⟩ : DWG Nat Nat) 1 2 9).1
        = Except.ok () ∧
     edgeCount (Replace.addEdge
        (⟨[(1, [(2, 7)]), (2, [])]⟩ : DWG Nat Nat) 1 2 9).2
        = edgeCount (⟨[(1, [(2, 7)]), (2, [])]⟩ : DWG Nat Nat) ∧
     mapGet (getEdges (Replace.addEdge
        (⟨[(1, [(2, 7)]), (2, [])]⟩ : DWG Nat Nat) 1 2 9).2 1) 2 = some 9 ∧
     ((getEdges (Replace.addEdge
        (⟨[(1, [(2, 7)]), (2, [])]⟩ : DWG Nat Nat) 1 2 9).2 1).map
        Prod.fst).count 2 = 1 ∧
     Strict.addEdge (⟨[(1, [(2, 7)]), (2, [])]⟩ : DWG Nat Nat) 1 2 9
        = Replace.addEdge (⟨[(1, [(2, 7)]), (2, [])]⟩ : DWG Nat Nat) 1 2 9) :=
  ⟨by decide, by decide, by decide,
   claim_c9_addEdge_overwrite ⟨[(1, [(2, 7)]), (2, [])]⟩ 1 2 9 7
     (by decide) (by decide) (by decide)⟩

end Claims

end Dwg
